import Mathlib

/-!
# Verification of the cleaning-agents simulation (randomAgents)

A shallow embedding of `random_agents/agent.py` and `random_agents/model.py`:
a grid of cells occupied by obstacles, dirty cells, charging stations and
cleaner agents; cleaner agents explore, clean, and route back to charging
stations with a Dijkstra search; the model constructs the world from
percentages and steps all agents each tick.

Conventions of the embedding:
* a cell is its integer coordinate pair; the grid topology is the
  8-connected Moore neighbourhood clipped at the bounds (the external `mesa`
  library provides `OrthogonalMooreGrid`; its neighbourhood enumeration
  order is fixed here, it only influences tie-breaking);
* machine integers are `Nat`/`Int` (the battery is an `Int` because the code
  can drive it negative);
* the seeded random generator of the Python standard library is external
  code; it is modelled as an explicit pure generator state (a linear
  congruential generator), which preserves the property the spec relies on:
  every random draw is a function of the generator state;
* the Python `while` loops of the Dijkstra search are given explicit fuel;
  exhausting the fuel yields `none`, so every `some` result is exactly what
  the Python loop computes.
-/

/-- A grid cell, identified by its `(x, y)` coordinate (mesa `cell.coordinate`). -/
abbrev Cell := Nat × Nat

/-- Mutable per-cleaner state: the attributes of `CleanerAgent` other than the
identity and the current cell (`agent.py`, `CleanerAgent.__init__`). -/
structure CleanerState where
  battery : Int
  moves : Nat
  cleaned_cells : Nat
  returning_to_charge : Bool
  initial_station : Option Nat
  path_to_station : List Cell
  visited_cells : List Cell
deriving DecidableEq

/-- The closed set of occupant kinds: `CleanerAgent`, `ObstacleAgent`,
`DirtyCellAgent` (with its `is_dirty` flag), `ChargingStationAgent`. -/
inductive AgentData where
  | cleanerA : CleanerState → AgentData
  | obstacleA : AgentData
  | dirtyA : Bool → AgentData
  | stationA : AgentData
deriving DecidableEq

/-- An occupant: unique id (mesa `unique_id`), current cell, and kind-specific data. -/
structure Agent where
  id : Nat
  cell : Cell
  data : AgentData
deriving DecidableEq

/-- The agents located on a cell (`cell.agents`), in model registration order. -/
def cellAgents (ags : List Agent) (c : Cell) : List Agent :=
  ags.filter (fun a => a.cell == c)

def isStationAg (a : Agent) : Bool :=
  match a.data with
  | .stationA => true
  | _ => false

def isCleanerAg (a : Agent) : Bool :=
  match a.data with
  | .cleanerA _ => true
  | _ => false

/-- A `DirtyCellAgent` whose `is_dirty` flag is set. -/
def isDirtyTrue (a : Agent) : Bool :=
  match a.data with
  | .dirtyA b => b
  | _ => false

/-- Traversability check used by `dijkstra_path` and `move_towards_station`
(`agent.py` lines 44-56 and 144-152): an empty cell is traversable; otherwise
the loop returns `True` at the first occupant that is a charging station, a
dirty cell, or a cleaner other than the requester, and `False` if no occupant
matches. -/
def can_move_to_dijkstra (ags : List Agent) (selfId : Nat) (c : Cell) : Bool :=
  let cellAgs := cellAgents ags c
  if cellAgs.isEmpty then true
  else cellAgs.any (fun x =>
    match x.data with
    | .stationA => true
    | .dirtyA _ => true
    | .cleanerA _ => x.id != selfId
    | .obstacleA => false)

/-- Traversability check used by the exploration routine `move`
(`agent.py` lines 183-190): like the pathfinding one but with no clause for
other cleaner agents. -/
def can_move_to_move (ags : List Agent) (c : Cell) : Bool :=
  let cellAgs := cellAgents ags c
  if cellAgs.isEmpty then true
  else cellAgs.any (fun x =>
    match x.data with
    | .stationA => true
    | .dirtyA _ => true
    | _ => false)

/-- In Python, `path[0] != neighborhood.select(...).cells` compares a `Cell`
object with a *list* of cells (`agent.py` line 136); objects of different
types are never equal, so the comparison is always `True`. -/
def py_ne_cell_list (c : Cell) (l : List Cell) : Bool := true

/-- The recalculation condition of `move_towards_station` (`agent.py` line 136):
`not self.path_to_station or (self.path_to_station and
self.path_to_station[0] != self.cell.neighborhood.select(...).cells)`. -/
def shouldRecalc (path : List Cell) (nbhd : List Cell) : Bool :=
  match path with
  | [] => true
  | p0 :: _ => py_ne_cell_list p0 (nbhd.filter (fun c => c == p0))

/-- The Moore offsets, 8-connected. The enumeration order of the external
mesa grid is fixed here; it only influences tie-breaking. -/
def mooreOffsets : List (Int × Int) :=
  [(-1, -1), (-1, 0), (-1, 1), (0, -1), (0, 1), (1, -1), (1, 0), (1, 1)]

/-- `cell.neighborhood.cells`: the 8-connected neighbours inside the
non-toroidal `width × height` grid (mesa `OrthogonalMooreGrid`, external). -/
def neighborhoodOf (w h : Nat) (c : Cell) : List Cell :=
  mooreOffsets.filterMap (fun d =>
    let nx : Int := (c.1 : Int) + d.1
    let ny : Int := (c.2 : Int) + d.2
    if 0 ≤ nx ∧ nx < (w : Int) ∧ 0 ≤ ny ∧ ny < (h : Int) then
      some (nx.toNat, ny.toNat)
    else none)

namespace Dijkstra

/-- A priority-queue entry `(cost, counter, cell)` of `heapq` in
`CleanerAgent.dijkstra_path`. -/
abbrev Entry := Nat × Nat × Cell

/-- Strict lexicographic order on `(cost, counter)`. The counter is unique per
push, so the cell component of a tuple is never compared, exactly as in the
Python tuples. -/
def keyLt (a b : Entry) : Bool :=
  a.1 < b.1 || (a.1 == b.1 && a.2.1 < b.2.1)

def minEntry : Entry → List Entry → Entry
  | e, [] => e
  | e, x :: xs => if keyLt x e then minEntry x xs else minEntry e xs

def eraseFirst : List Entry → Entry → List Entry
  | [], _ => []
  | x :: xs, e => if x == e then xs else x :: eraseFirst xs e

/-- `heapq.heappop`: removes and returns the minimum entry. The `(cost,
counter)` keys in the queue are pairwise distinct, so the minimum is unique
and the scan order is irrelevant. -/
def popMin (l : List Entry) : Option (Entry × List Entry) :=
  match l with
  | [] => none
  | x :: xs =>
    let m := minEntry x xs
    some (m, eraseFirst (x :: xs) m)

/-- Association-list lookup (Python `dict` access). Updates prepend, so the
most recent binding shadows older ones. -/
def alook {α : Type} : List (Cell × α) → Cell → Option α
  | [], _ => none
  | (k, v) :: rest, c => if k = c then some v else alook rest c

/-- The loop state of `dijkstra_path`: priority queue, visited set,
`came_from` and `cost_so_far` dictionaries, and the tie-breaking counter. -/
structure DState where
  pq : List Entry
  visited : List Cell
  came_from : List (Cell × Cell)
  cost : List (Cell × Nat)
  counter : Nat
deriving DecidableEq

/-- The body of the neighbour loop (`agent.py` lines 77-91): skip visited or
non-traversable neighbours; otherwise relax, recording predecessor, cost and
a fresh counter, and push. -/
def relax (canMove : Cell → Bool) (cur : Cell) (ccost : Nat)
    (st : DState) (nb : Cell) : DState :=
  if nb ∈ st.visited then st
  else if canMove nb = false then st
  else if (match alook st.cost nb with
           | none => true
           | some old => decide (ccost + 1 < old)) = true then
    { st with pq := (ccost + 1, st.counter + 1, nb) :: st.pq,
              came_from := (nb, cur) :: st.came_from,
              cost := (nb, ccost + 1) :: st.cost,
              counter := st.counter + 1 }
  else st

/-- The path reconstruction of `dijkstra_path` (`agent.py` lines 68-75):
`while cell in came_from: path.append(cell); cell = came_from[cell]` and a
final reversal, here accumulated by consing (which yields the reversed list
directly). Fuel exhaustion yields `none`. -/
def reconstruct (cf : List (Cell × Cell)) : Nat → Cell → List Cell → Option (List Cell)
  | 0, _, _ => none
  | fuel + 1, cell, acc =>
    match alook cf cell with
    | none => some acc
    | some p => reconstruct cf fuel p (cell :: acc)

/-- The main `while pq:` loop of `dijkstra_path` (`agent.py` lines 58-94).
An empty queue returns the empty path; a popped visited cell is skipped;
popping the target reconstructs; otherwise the neighbours are relaxed.
Fuel exhaustion yields `none`; the Python loop always terminates, so with
enough fuel the result is `some` of what the Python code returns. -/
def dloop (canMove : Cell → Bool) (nbhd : Cell → List Cell) (target : Cell) :
    Nat → DState → Option (List Cell)
  | 0, _ => none
  | fuel + 1, st =>
    match popMin st.pq with
    | none => some []
    | some (e, rest) =>
      let ccost := e.1
      let cur := e.2.2
      if cur ∈ st.visited then
        dloop canMove nbhd target fuel
          { st with pq := rest }
      else
        let st1 : DState :=
          { st with pq := rest, visited := cur :: st.visited }
        if cur = target then
          reconstruct st1.came_from (st1.came_from.length + 1) target []
        else
          dloop canMove nbhd target fuel
            ((nbhd cur).foldl (relax canMove cur ccost) st1)

/-- `CleanerAgent.dijkstra_path` (`agent.py` lines 32-94), parameterised by
the traversability predicate (a closure over the requesting agent and the
current grid in the source) and the neighbourhood function. -/
def dijkstra_path (canMove : Cell → Bool) (nbhd : Cell → List Cell)
    (src target : Cell) (fuel : Nat) : Option (List Cell) :=
  dloop canMove nbhd target fuel ⟨[(0, 0, src)], [], [], [(src, 0)], 0⟩

/-- One step of a path as the search sees it: the successor is traversable
and adjacent to its predecessor. -/
def DStep (canMove : Cell → Bool) (nbhd : Cell → List Cell) (a b : Cell) : Prop :=
  canMove b = true ∧ b ∈ nbhd a

/-- Invariant of the Dijkstra loop state: every `came_from` entry records a
traversable move between neighbours, parents chain back towards the source,
the source is never a key, its cost stays `0`, and every queued cell is the
source or traversable and recorded in `came_from`. -/
structure DInv (canMove : Cell → Bool) (nbhd : Cell → List Cell) (src : Cell)
    (st : DState) : Prop where
  cfStep : ∀ e ∈ st.came_from, canMove e.1 = true ∧ e.1 ∈ nbhd e.2
  cfParent : ∀ e ∈ st.came_from, e.2 = src ∨ ∃ x ∈ st.came_from, x.1 = e.2
  cfNoSrc : ∀ e ∈ st.came_from, e.1 ≠ src
  costSrc : alook st.cost src = some 0
  pqMove : ∀ t ∈ st.pq, t.2.2 = src ∨ canMove t.2.2 = true
  pqKey : ∀ t ∈ st.pq, t.2.2 = src ∨ ∃ x ∈ st.came_from, x.1 = t.2.2

end Dijkstra

/-- The linear congruential generator standing in for Python's seeded
Mersenne Twister (external standard-library code). Modelled from the spec:
the only requirement on the generator is that it is deterministic and
seeded, every draw being a pure function of its state. -/
def rngNext (s : Nat) : Nat := (s * 1103515245 + 12345) % 2147483648

/-- Draw a number below `n` (and the next generator state). -/
def randBelow (s n : Nat) : Nat × Nat :=
  let s1 := rngNext s
  (if n = 0 then 0 else s1 % n, s1)

/-- `random.choice(l)` for a non-empty list (modelled from the spec: draws
one uniformly random element, reproducibly from the generator state). -/
def randChoice (rng : Nat) (l : List Cell) (dflt : Cell) : Cell × Nat :=
  let pr := randBelow rng l.length
  (l.getD pr.1 dflt, pr.2)

/-- `random.sample(l, k)`: `k` distinct elements of `l` (modelled from the
spec as draws without replacement; every call site guards `k ≤ l.length`). -/
def sample : Nat → List Cell → Nat → List Cell × Nat
  | rng, _, 0 => ([], rng)
  | rng, l, k + 1 =>
    if l.isEmpty then ([], rng)
    else
      let pr := randBelow rng l.length
      let c := l.getD pr.1 (0, 0)
      let rec2 := sample pr.2 (l.eraseIdx pr.1) k
      (c :: rec2.1, rec2.2)

/-- `random.shuffle` (modelled from the spec as a Fisher-Yates shuffle fed by
the generator state). Used for the per-tick agent activation order. -/
def shuffleGo : Nat → Nat → List Nat → List Nat × Nat
  | _, rng, [] => ([], rng)
  | 0, rng, l => (l, rng)
  | k + 1, rng, l =>
    let pr := randBelow rng l.length
    let c := l.getD pr.1 0
    let rest := shuffleGo k pr.2 (l.eraseIdx pr.1)
    (c :: rest.1, rest.2)

/-- Shuffle a list, drawing from the generator state. -/
def shuffleList (rng : Nat) (l : List Nat) : List Nat × Nat :=
  shuffleGo l.length rng l

/-- Look an agent up by its unique id (mesa resolves `self`): the first
agent carrying the id. -/
def findAgent : List Agent → Nat → Option Agent
  | [], _ => none
  | a :: rest, i => if a.id = i then some a else findAgent rest i

/-- Write the cleaner's mutated state back: Python mutates `self` in place,
here the agent with the given id gets the new cell and cleaner state. -/
def writeCleaner (ags : List Agent) (i : Nat) (c : Cell) (cs : CleanerState) :
    List Agent :=
  ags.map (fun a => if a.id = i then { a with cell := c, data := .cleanerA cs } else a)

/-- `self.visited_cells.add(cell)`: the Python set is modelled as a
duplicate-free list, only membership is ever queried. -/
def addVisited (l : List Cell) (c : Cell) : List Cell :=
  if c ∈ l then l else l ++ [c]

/-- Manhattan distance used by `find_charging_station` (`agent.py` 121-123). -/
def manhattanDist (a b : Cell) : Nat :=
  ((a.1 : Int) - b.1).natAbs + ((a.2 : Int) - b.2).natAbs

/-- `CleanerAgent.find_charging_station` (`agent.py` lines 96-129): all
stations, in registration order; in multi-agent mode the known initial
station is preferred when still present; otherwise the first
Manhattan-nearest station. -/
def find_charging_station (multi : Bool) (ags : List Agent) (selfCell : Cell)
    (initSt : Option Nat) : Option Agent :=
  let charging_stations := ags.filter isStationAg
  if charging_stations.isEmpty then none
  else
    let viaInit : Option Agent :=
      match initSt with
      | some sid =>
        if multi then charging_stations.find? (fun a => a.id == sid) else none
      | none => none
    match viaInit with
    | some s => some s
    | none =>
      (charging_stations.foldl (fun acc s =>
        match acc with
        | none => some (s, manhattanDist selfCell s.cell)
        | some pr =>
          if manhattanDist selfCell s.cell < pr.2 then
            some (s, manhattanDist selfCell s.cell)
          else acc) none).map (fun pr => pr.1)

/-- Fuel passed to the embedded Dijkstra loop; ample for any run on a
`w × h` grid (the Python loop pushes each cell at most once per strict cost
decrease and the costs of pushed entries never exceed the cell count). -/
def dijkstraFuel (w h : Nat) : Nat := (w * h + 2) * (w * h + 2) * 9

namespace CleanerAgent

/-- `CleanerAgent.move_towards_station` (`agent.py` lines 131-161): possibly
recompute the cached path (the condition is always true, see
`shouldRecalc`), pop its first cell, and move there if it is still
traversable, else drop the cache. -/
def move_towards_station (w h : Nat) (ags : List Agent) (dirty : Int) (rng : Nat)
    (selfId : Nat) (cell : Cell) (cs : CleanerState) (target : Cell) :
    List Agent × Int × Nat :=
  let path0 :=
    if shouldRecalc cs.path_to_station (neighborhoodOf w h cell) then
      (Dijkstra.dijkstra_path (can_move_to_dijkstra ags selfId) (neighborhoodOf w h)
        cell target (dijkstraFuel w h)).getD []
    else cs.path_to_station
  match path0 with
  | [] => (writeCleaner ags selfId cell { cs with path_to_station := [] }, dirty, rng)
  | next :: restPath =>
    if can_move_to_dijkstra ags selfId next then
      (writeCleaner ags selfId next
        { cs with path_to_station := restPath,
                  visited_cells := addVisited cs.visited_cells next,
                  battery := cs.battery - 1,
                  moves := cs.moves + 1 }, dirty, rng)
    else
      (writeCleaner ags selfId cell { cs with path_to_station := [] }, dirty, rng)

/-- `CleanerAgent.clean_current_cell` (`agent.py` lines 163-175): the first
dirty-flagged `DirtyCellAgent` on the current cell is cleaned; battery drops
by 1, the cleaned counter rises, the model's aggregate count drops. Returns
(cleaned?, agents, dirty count, cleaner state). -/
def clean_current_cell (ags : List Agent) (dirty : Int) (cell : Cell)
    (cs : CleanerState) : Bool × List Agent × Int × CleanerState :=
  match (cellAgents ags cell).find? isDirtyTrue with
  | some d =>
    (true,
     ags.map (fun a => if a.id = d.id then { a with data := .dirtyA false } else a),
     dirty - 1,
     { cs with battery := cs.battery - 1, cleaned_cells := cs.cleaned_cells + 1 })
  | none => (false, ags, dirty, cs)

/-- `CleanerAgent.move` (`agent.py` lines 177-223): among traversable
neighbours prefer dirty cells (unvisited first), then unvisited cells, then
any; the chosen cell costs one battery point and one move. -/
def move (w h : Nat) (ags : List Agent) (dirty : Int) (rng : Nat)
    (selfId : Nat) (cell : Cell) (cs : CleanerState) : List Agent × Int × Nat :=
  let next_moves := (neighborhoodOf w h cell).filter (can_move_to_move ags)
  if next_moves.isEmpty then (writeCleaner ags selfId cell cs, dirty, rng)
  else
    let dirty_cells :=
      next_moves.filter (fun c => (cellAgents ags c).any isDirtyTrue)
    let pick :=
      if dirty_cells.isEmpty = false then
        let unvisited_dirty := dirty_cells.filter (fun c => !(cs.visited_cells.contains c))
        if unvisited_dirty.isEmpty = false then randChoice rng unvisited_dirty (0, 0)
        else randChoice rng dirty_cells (0, 0)
      else
        let unvisited_cells := next_moves.filter (fun c => !(cs.visited_cells.contains c))
        if unvisited_cells.isEmpty = false then randChoice rng unvisited_cells (0, 0)
        else randChoice rng next_moves (0, 0)
    (writeCleaner ags selfId pick.1
      { cs with visited_cells := addVisited cs.visited_cells pick.1,
                battery := cs.battery - 1,
                moves := cs.moves + 1 }, dirty, pick.2)

/-- The part of `CleanerAgent.step` after the charging-station block
(`agent.py` lines 243-261): return to a station on low battery, stall on an
empty battery, otherwise clean the current cell or explore. -/
def stepRest (w h : Nat) (multi : Bool) (ags : List Agent) (dirty : Int) (rng : Nat)
    (selfId : Nat) (cell : Cell) (at_charging_station : Bool) (cs : CleanerState) :
    List Agent × Int × Nat :=
  if cs.battery ≤ 20 ∧ at_charging_station = false then
    let cs1 := { cs with returning_to_charge := true }
    match find_charging_station multi ags cell cs1.initial_station with
    | some stAg => move_towards_station w h ags dirty rng selfId cell cs1 stAg.cell
    | none => (writeCleaner ags selfId cell cs1, dirty, rng)
  else if cs.battery ≤ 0 then
    (writeCleaner ags selfId cell cs, dirty, rng)
  else
    let cl := clean_current_cell ags dirty cell cs
    if cl.1 = false ∧ cl.2.2.2.battery > 0 then
      move w h cl.2.1 cl.2.2.1 rng selfId cell cl.2.2.2
    else
      (writeCleaner cl.2.1 selfId cell cl.2.2.2, cl.2.2.1, rng)

/-- `CleanerAgent.step` (`agent.py` lines 225-261), acting on the state the
agent code can mutate (the agents, the model's dirty count, the generator).
A non-cleaner id is a no-op (the other agent kinds have a `pass` step). -/
def step (w h : Nat) (multi : Bool) (st : List Agent × Int × Nat) (selfId : Nat) :
    List Agent × Int × Nat :=
  match findAgent st.1 selfId with
  | none => st
  | some a =>
    match a.data with
    | .cleanerA cs0 =>
      let at_charging_station := (cellAgents st.1 a.cell).any isStationAg
      if at_charging_station = true ∧ cs0.battery < 100 then
        (writeCleaner st.1 selfId a.cell
          { cs0 with battery := min 100 (cs0.battery + 5), returning_to_charge := true },
         st.2.1, st.2.2)
      else
        let cs1 := if at_charging_station then
          { cs0 with returning_to_charge := false } else cs0
        stepRest w h multi st.1 st.2.1 st.2.2 selfId a.cell at_charging_station cs1
    | _ => st

end CleanerAgent

/-- Extract a cleaner's battery (for stating evaluations). -/
def batteryOf (ags : List Agent) (i : Nat) : Option Int :=
  match findAgent ags i with
  | some a =>
    match a.data with
    | .cleanerA cs => some cs.battery
    | _ => none
  | none => none

/-- Extract a cleaner's `returning_to_charge` flag. -/
def returningOf (ags : List Agent) (i : Nat) : Option Bool :=
  match findAgent ags i with
  | some a =>
    match a.data with
    | .cleanerA cs => some cs.returning_to_charge
    | _ => none
  | none => none

/-- Constructor parameters of `CleaningModel.__init__` (`model.py` 18-19). -/
structure Params where
  num_agents : Nat
  width : Nat
  height : Nat
  dirty_percentage : Nat
  obstacle_percentage : Nat
  max_time : Nat
  multi_agent_mode : Bool
  seed : Nat
deriving DecidableEq

/-- The model state: configuration, the occupant registry in registration
order, the aggregate dirty count, the tick counter and the run flags
(`model.py`, `CleaningModel.__init__`). -/
structure ModelState where
  width : Nat
  height : Nat
  num_agents : Nat
  dirty_percentage : Nat
  obstacle_percentage : Nat
  seed : Nat
  max_time : Nat
  multi_agent_mode : Bool
  agents : List Agent
  dirty_cells : Int
  initial_dirty_cells : Int
  current_step : Nat
  cleaning_completed_at : Option Nat
  running : Bool
  rng : Nat
deriving DecidableEq

/-- A fallback model value (used only as the default of `Option.getD`). -/
def emptyModel : ModelState :=
  { width := 0, height := 0, num_agents := 0, dirty_percentage := 0,
    obstacle_percentage := 0, seed := 0, max_time := 0, multi_agent_mode := false,
    agents := [], dirty_cells := 0, initial_dirty_cells := 0, current_step := 0,
    cleaning_completed_at := none, running := false, rng := 0 }

/-- Grid iteration order (`for cell in self.grid`, external mesa grid over
`[width, height]`): row-major over the coordinates. -/
def allCells (w h : Nat) : List Cell :=
  (List.range w).flatMap (fun x => (List.range h).map (fun y => (x, y)))

/-- A border coordinate: `y in [0, height-1] or x in [0, width-1]`
(`model.py` lines 46-49). -/
def isBorder (w h : Nat) (c : Cell) : Bool :=
  c.1 == 0 || c.1 == w - 1 || c.2 == 0 || c.2 == h - 1

/-- `available_cells` (`model.py` lines 41-43): all cells whose x coordinate
is not in `[0, width-1]` and whose y coordinate is not in `[0, height-1]`. -/
def interiorCells (w h : Nat) : List Cell :=
  (allCells w h).filter (fun c => !(isBorder w h c))

/-- `num_dirty = int((dirty_percentage / 100) * total_cells)` with
`total_cells = width * height` (`model.py` lines 36-37). Python computes
this with float arithmetic whose truncation can differ from exact rational
flooring by one in corner cases; the pool it draws from — the full grid —
is the same. -/
def num_dirty_of (p : Params) : Nat :=
  p.dirty_percentage * (p.width * p.height) / 100

/-- `num_obstacles = int((obstacle_percentage / 100) * total_cells)`
(`model.py` line 38), full-grid pool, same float caveat as `num_dirty_of`. -/
def num_obstacles_of (p : Params) : Nat :=
  p.obstacle_percentage * (p.width * p.height) / 100

/-- The construction steps shared by both modes after the charging stations
are placed (`model.py` lines 80-136): sample obstacles if the request fits
(silently skipping it otherwise), create a `DirtyCellAgent` on every cell
free of obstacles and stations, sample the dirty cells if the request fits
(silently skipping it otherwise), set the aggregate counts, and create the
cleaners at the station cells. -/
def buildRest (p : Params) (stationAgs : List Agent) (cleanersAt : List (Nat × Cell))
    (avail1 : List Cell) (borderAgs : List Agent) (nid1 : Nat) (rng1 : Nat) :
    ModelState :=
  let w := p.width
  let h := p.height
  let num_dirty := num_dirty_of p
  let num_obstacles := num_obstacles_of p
  let ores :=
    if 0 < num_obstacles ∧ num_obstacles ≤ avail1.length then
      sample rng1 avail1 num_obstacles
    else ([], rng1)
  let obsCells := ores.1
  let rng2 := ores.2
  let obsAgs := obsCells.enum.map
    (fun ic => { id := nid1 + ic.1, cell := ic.2, data := .obstacleA : Agent })
  let nid2 := nid1 + obsCells.length
  let avail2 := obsCells.foldl (fun l c => l.erase c) avail1
  let occupied := borderAgs ++ stationAgs ++ obsAgs
  let dirtyHosts := (allCells w h).filter
    (fun c => !(occupied.any (fun a => a.cell == c)))
  let dirtyAgs := dirtyHosts.enum.map
    (fun ic => { id := nid2 + ic.1, cell := ic.2, data := .dirtyA false : Agent })
  let nid3 := nid2 + dirtyAgs.length
  let dres :=
    if 0 < num_dirty ∧ num_dirty ≤ avail2.length then
      sample rng2 avail2 num_dirty
    else ([], rng2)
  let chosenDirty := dres.1
  let rng3 := dres.2
  let dirtyAgs2 := dirtyAgs.map
    (fun a => if a.cell ∈ chosenDirty then { a with data := .dirtyA true } else a)
  let cleaners := cleanersAt.enum.map
    (fun ic => { id := nid3 + ic.1, cell := ic.2.2,
                 data := .cleanerA { battery := 100, moves := 0, cleaned_cells := 0,
                                     returning_to_charge := false,
                                     initial_station := some ic.2.1,
                                     path_to_station := [],
                                     visited_cells := [ic.2.2] } : Agent })
  { width := w, height := h, num_agents := p.num_agents,
    dirty_percentage := p.dirty_percentage,
    obstacle_percentage := p.obstacle_percentage, seed := p.seed,
    max_time := p.max_time, multi_agent_mode := p.multi_agent_mode,
    agents := borderAgs ++ stationAgs ++ obsAgs ++ dirtyAgs2 ++ cleaners,
    dirty_cells := (num_dirty : Int), initial_dirty_cells := (num_dirty : Int),
    current_step := 0, cleaning_completed_at := none, running := true, rng := rng3 }

/-- `CleaningModel.__init__` (`model.py` lines 18-136). Border cells get
obstacles; in multi-agent mode `num_agents` start cells are sampled from the
interior (raising `ValueError` when they do not fit) and each gets a
charging station and later a cleaner; in single mode the one station sits at
`(1, 1)` (mesa raises on an out-of-range index and `list.remove` raises when
`(1, 1)` is a border cell), and all cleaners start there. -/
def mkCleaningModel (p : Params) : Except String ModelState :=
  let w := p.width
  let h := p.height
  let border := (allCells w h).filter (fun c => isBorder w h c)
  let borderAgs := border.enum.map
    (fun ic => { id := 1 + ic.1, cell := ic.2, data := .obstacleA : Agent })
  let nid0 := 1 + border.length
  let avail0 := interiorCells w h
  let rng0 := p.seed
  if p.multi_agent_mode then
    if p.num_agents ≤ avail0.length then
      let sres := sample rng0 avail0 p.num_agents
      let starts := sres.1
      let rng1 := sres.2
      let stationAgs := starts.enum.map
        (fun ic => { id := nid0 + ic.1, cell := ic.2, data := .stationA : Agent })
      let nid1 := nid0 + starts.length
      let avail1 := starts.foldl (fun l c => l.erase c) avail0
      let cleanersAt := stationAgs.map (fun a => (a.id, a.cell))
      Except.ok (buildRest p stationAgs cleanersAt avail1 borderAgs nid1 rng1)
    else Except.error "Not enough available cells for all agents"
  else
    if 1 < w ∧ 1 < h then
      let stCell : Cell := (1, 1)
      if stCell ∈ avail0 then
        let stationAgs : List Agent := [{ id := nid0, cell := stCell, data := .stationA }]
        let nid1 := nid0 + 1
        let avail1 := avail0.erase stCell
        let cleanersAt := List.replicate p.num_agents (nid0, stCell)
        Except.ok (buildRest p stationAgs cleanersAt avail1 borderAgs nid1 rng0)
      else Except.error "list.remove(x): x not in list"
    else Except.error "grid coordinate out of range"

/-- `all_agents_dead` of `CleaningModel.step` (`model.py` lines 161-169):
no cleaner has positive battery or sits on a charging station. -/
def allAgentsDead (ags : List Agent) : Bool :=
  ags.all (fun a =>
    match a.data with
    | .cleanerA cs =>
      !(decide (cs.battery > 0) || (cellAgents ags a.cell).any isStationAg)
    | _ => true)

namespace CleaningModel

/-- `CleaningModel.step` (`model.py` lines 138-173): advance the tick
counter, activate every agent once in a freshly shuffled order, record the
completion tick the first time the aggregate dirty count is down to zero,
and clear the run flag on reaching `max_time`, on a clean grid, or on global
starvation. -/
def step (m : ModelState) : ModelState :=
  let cs := m.current_step + 1
  let pr := shuffleList m.rng (m.agents.map (fun a => a.id))
  let core := pr.1.foldl
    (CleanerAgent.step m.width m.height m.multi_agent_mode)
    (m.agents, m.dirty_cells, pr.2)
  let completed :=
    if core.2.1 ≤ 0 ∧ m.cleaning_completed_at = none then some cs
    else m.cleaning_completed_at
  let running2 := if cs ≥ m.max_time then false else m.running
  let running3 := if core.2.1 ≤ 0 then false else running2
  let running4 := if allAgentsDead core.1 then false else running3
  { m with current_step := cs, agents := core.1, dirty_cells := core.2.1,
           rng := core.2.2, cleaning_completed_at := completed,
           running := running4 }

end CleaningModel

/-- Iterated model steps: `stepN n m` is the state after `n` calls of
`CleaningModel.step`. -/
def stepN : Nat → ModelState → ModelState
  | 0, m => m
  | n + 1, m => CleaningModel.step (stepN n m)

/-- Per-agent entry of `get_statistics` (`model.py` lines 208-216). -/
structure AgentStat where
  agent_id : Nat
  moves : Nat
  cleaned_cells : Nat
  battery : Int
deriving DecidableEq

/-- The dictionary returned by `get_statistics` (`model.py` lines 218-229).
`clean_percentage` is a Python float; it is embedded as an exact rational. -/
structure Statistics where
  mode : String
  num_agents : Nat
  steps : Nat
  completion_time : Nat
  dirty_cells_remaining : Int
  initial_dirty_cells : Int
  total_moves : Nat
  total_cleaned : Nat
  clean_percentage : Rat
  agent_statistics : List AgentStat
deriving DecidableEq

/-- The cleaners of the model with their states, in registration order. -/
def cleanersOf (m : ModelState) : List (Agent × CleanerState) :=
  m.agents.filterMap (fun a =>
    match a.data with
    | .cleanerA cs => some (a, cs)
    | _ => none)

namespace CleaningModel

/-- `CleaningModel.get_statistics` (`model.py` lines 192-229).
`completion_time` is `self.cleaning_completed_at if self.cleaning_completed_at
else self.current_step`: Python truthiness treats both `None` and `0` as
falsy, hence the extra zero test on the recorded tick. -/
def get_statistics (m : ModelState) : Statistics :=
  let cleaners := cleanersOf m
  let total_moves := (cleaners.map (fun x => x.2.moves)).sum
  let total_cleaned := (cleaners.map (fun x => x.2.cleaned_cells)).sum
  let clean_percentage : Rat :=
    if m.initial_dirty_cells > 0 then
      ((m.initial_dirty_cells - m.dirty_cells : Int) : Rat) /
        ((m.initial_dirty_cells : Int) : Rat) * 100
    else 100
  { mode := if m.multi_agent_mode then "Multi-Agent" else "Single Agent",
    num_agents := m.num_agents,
    steps := m.current_step,
    completion_time :=
      match m.cleaning_completed_at with
      | some t => if t ≠ 0 then t else m.current_step
      | none => m.current_step,
    dirty_cells_remaining := m.dirty_cells,
    initial_dirty_cells := m.initial_dirty_cells,
    total_moves := total_moves,
    total_cleaned := total_cleaned,
    clean_percentage := clean_percentage,
    agent_statistics := cleaners.map (fun x =>
      { agent_id := x.1.id, moves := x.2.moves,
        cleaned_cells := x.2.cleaned_cells, battery := x.2.battery }) }

end CleaningModel

/-- One row of the `DataCollector` (`model.py` lines 119-134): the model
reporters and, for every registered agent, the agent reporters (which yield
`None` on non-cleaner agents). -/
structure DataRow where
  step : Nat
  dirty_cells : Int
  clean_percentage : Rat
  total_moves : Nat
  total_cleaned : Nat
  batteryCol : List (Option Int)
  movesCol : List (Option Nat)
  cleanedCol : List (Option Nat)
  xCol : List (Option Nat)
  yCol : List (Option Nat)
deriving DecidableEq

/-- The snapshot collected after the agents move in a tick. -/
def collectRow (m : ModelState) : DataRow :=
  let cleaners := cleanersOf m
  { step := m.current_step,
    dirty_cells := m.dirty_cells,
    clean_percentage :=
      if m.initial_dirty_cells > 0 then
        ((m.initial_dirty_cells - m.dirty_cells : Int) : Rat) /
          ((m.initial_dirty_cells : Int) : Rat) * 100
      else 100,
    total_moves := (cleaners.map (fun x => x.2.moves)).sum,
    total_cleaned := (cleaners.map (fun x => x.2.cleaned_cells)).sum,
    batteryCol := m.agents.map (fun a =>
      match a.data with | .cleanerA cs => some cs.battery | _ => none),
    movesCol := m.agents.map (fun a =>
      match a.data with | .cleanerA cs => some cs.moves | _ => none),
    cleanedCol := m.agents.map (fun a =>
      match a.data with | .cleanerA cs => some cs.cleaned_cells | _ => none),
    xCol := m.agents.map (fun a =>
      match a.data with | .cleanerA _ => some a.cell.1 | _ => none),
    yCol := m.agents.map (fun a =>
      match a.data with | .cleanerA _ => some a.cell.2 | _ => none) }

/-- The tick-by-tick statistics of a run of `n` ticks: the data row after
each of the `n` steps. -/
def collectTrace (m : ModelState) (n : Nat) : List DataRow :=
  (List.range n).map (fun k => collectRow (stepN (k + 1) m))

/-- Concrete state for evaluating the battery bug: a charging station at
(2,1) and a cleaner at (1,1) with battery 0, off the station, on a 4 by 4
grid. Such a state arises in runs whenever an agent's battery hits 0 while
it is travelling back to a distant station. -/
def agsC1 : List Agent :=
  [ { id := 1, cell := (2, 1), data := .stationA },
    { id := 2, cell := (1, 1), data := .cleanerA
        { battery := 0, moves := 0, cleaned_cells := 0, returning_to_charge := false,
          initial_station := some 1, path_to_station := [], visited_cells := [(1, 1)] } } ]

/-- A minimal valid configuration: 3 by 3 grid (one interior cell), one
agent, nothing dirty, no obstacles beyond the border, one tick. -/
def p3 : Params :=
  { num_agents := 1, width := 3, height := 3, dirty_percentage := 0,
    obstacle_percentage := 0, max_time := 1, multi_agent_mode := true, seed := 42 }

/-- The model built from `p3`. -/
def demo3 : ModelState := (mkCleaningModel p3).toOption.getD emptyModel

/-- A configuration requesting 25 obstacle cells on a 5 by 5 grid whose
interior holds only 9 cells. -/
def pC2 : Params :=
  { num_agents := 1, width := 5, height := 5, dirty_percentage := 0,
    obstacle_percentage := 100, max_time := 10, multi_agent_mode := true, seed := 0 }

/-- A configuration on a 10 by 10 grid with 50 percent dirt, where the
full-grid count (50) differs from the interior-pool count (32). -/
def pC7 : Params :=
  { num_agents := 1, width := 10, height := 10, dirty_percentage := 50,
    obstacle_percentage := 0, max_time := 10, multi_agent_mode := true, seed := 0 }

/-- The obstacles a model holds away from the border (the ones placed by the
percentage request rather than as walls). -/
def countInteriorObstacles (m : ModelState) : Nat :=
  (m.agents.filter (fun a =>
    (match a.data with | .obstacleA => true | _ => false) &&
      !(isBorder m.width m.height a.cell))).length

/-- Concrete cleaner state for the charging behaviour: half charged, on its
way back. -/
def csC5 : CleanerState :=
  { battery := 50, moves := 0, cleaned_cells := 0, returning_to_charge := true,
    initial_station := some 1, path_to_station := [], visited_cells := [(1, 1)] }

/-- The cleaner carrying `csC5`, sitting on the station cell. -/
def agC5 : Agent := { id := 2, cell := (1, 1), data := .cleanerA csC5 }

/-- Concrete state for the charging behaviour: a station and a half-charged
cleaner on the same cell. -/
def agsC5 : List Agent :=
  [ { id := 1, cell := (1, 1), data := .stationA }, agC5 ]

namespace Dijkstra

lemma minEntry_mem (e : Entry) (l : List Entry) :
    minEntry e l = e ∨ minEntry e l ∈ l := by
  induction l generalizing e with
  | nil => exact Or.inl rfl
  | cons x xs ih =>
    simp only [minEntry]
    split
    · rcases ih x with h1 | h1
      · exact Or.inr (by simp [h1])
      · exact Or.inr (List.mem_cons_of_mem _ h1)
    · rcases ih e with h1 | h1
      · exact Or.inl h1
      · exact Or.inr (List.mem_cons_of_mem _ h1)

lemma eraseFirst_subset (l : List Entry) (e : Entry) :
    ∀ x ∈ eraseFirst l e, x ∈ l := by
  induction l with
  | nil => intro x hx; simp [eraseFirst] at hx
  | cons y ys ih =>
    intro x hx
    simp only [eraseFirst] at hx
    split at hx
    · exact List.mem_cons_of_mem _ hx
    · rcases List.mem_cons.mp hx with h | h
      · exact h ▸ List.mem_cons_self _ _
      · exact List.mem_cons_of_mem _ (ih x h)

lemma popMin_mem {l : List Entry} {m : Entry} {rest : List Entry}
    (h : popMin l = some (m, rest)) : m ∈ l ∧ ∀ x ∈ rest, x ∈ l := by
  cases l with
  | nil => simp [popMin] at h
  | cons x xs =>
    simp only [popMin, Option.some.injEq, Prod.mk.injEq] at h
    obtain ⟨h1, h2⟩ := h
    constructor
    · rcases minEntry_mem x xs with hm | hm
      · rw [← h1, hm]; exact List.mem_cons_self _ _
      · rw [← h1]; exact List.mem_cons_of_mem _ hm
    · rw [← h2]; exact eraseFirst_subset _ _

lemma alook_mem {α : Type} {l : List (Cell × α)} {c : Cell} {v : α}
    (h : alook l c = some v) : (c, v) ∈ l := by
  induction l with
  | nil => simp [alook] at h
  | cons e rest ih =>
    obtain ⟨k, w⟩ := e
    simp only [alook] at h
    split at h
    · rename_i hk
      injection h with h
      subst h; subst hk
      exact List.mem_cons_self _ _
    · exact List.mem_cons_of_mem _ (ih h)

lemma alook_eq_none {α : Type} {l : List (Cell × α)} {c : Cell}
    (h : ∀ e ∈ l, e.1 ≠ c) : alook l c = none := by
  induction l with
  | nil => rfl
  | cons e rest ih =>
    obtain ⟨k, w⟩ := e
    simp only [alook]
    rw [if_neg (h (k, w) (List.mem_cons_self _ _))]
    exact ih (fun x hx => h x (List.mem_cons_of_mem _ hx))

lemma alook_isSome {α : Type} {l : List (Cell × α)} {c : Cell}
    (h : ∃ e ∈ l, e.1 = c) : ∃ v, alook l c = some v := by
  induction l with
  | nil => simp at h
  | cons e rest ih =>
    obtain ⟨k, w⟩ := e
    simp only [alook]
    by_cases hk : k = c
    · rw [if_pos hk]; exact ⟨w, rfl⟩
    · rw [if_neg hk]
      apply ih
      obtain ⟨x, hx, hx1⟩ := h
      rcases List.mem_cons.mp hx with hxe | hxe
      · exact absurd (by rw [hxe] at hx1; exact hx1) hk
      · exact ⟨x, hxe, hx1⟩

lemma relax_inv {canMove : Cell → Bool} {nbhd : Cell → List Cell} {src cur : Cell}
    {ccost : Nat} {st : DState} {nb : Cell}
    (h : DInv canMove nbhd src st)
    (hcur : cur = src ∨ ∃ x ∈ st.came_from, x.1 = cur)
    (hnb : nb ∈ nbhd cur) :
    DInv canMove nbhd src (relax canMove cur ccost st nb) ∧
      ∀ x ∈ st.came_from, x ∈ (relax canMove cur ccost st nb).came_from := by
  unfold relax
  split
  · exact ⟨h, fun x hx => hx⟩
  split
  · exact ⟨h, fun x hx => hx⟩
  rename_i hvis hmove
  have hmv : canMove nb = true := by
    cases hcm : canMove nb
    · exact absurd hcm hmove
    · rfl
  split
  · rename_i hupd
    have hnbsrc : nb ≠ src := by
      intro hns
      subst hns
      rw [h.costSrc] at hupd
      simp at hupd
    refine ⟨⟨?_, ?_, ?_, ?_, ?_, ?_⟩, ?_⟩
    · intro e he
      rcases List.mem_cons.mp he with he | he
      · subst he; exact ⟨hmv, hnb⟩
      · exact h.cfStep e he
    · intro e he
      rcases List.mem_cons.mp he with he | he
      · subst he
        rcases hcur with hc | ⟨x, hx, hx1⟩
        · exact Or.inl hc
        · exact Or.inr ⟨x, List.mem_cons_of_mem _ hx, hx1⟩
      · rcases h.cfParent e he with hc | ⟨x, hx, hx1⟩
        · exact Or.inl hc
        · exact Or.inr ⟨x, List.mem_cons_of_mem _ hx, hx1⟩
    · intro e he
      rcases List.mem_cons.mp he with he | he
      · subst he; exact hnbsrc
      · exact h.cfNoSrc e he
    · show alook ((nb, ccost + 1) :: st.cost) src = some 0
      simp only [alook]
      rw [if_neg hnbsrc]
      exact h.costSrc
    · intro t ht
      rcases List.mem_cons.mp ht with ht | ht
      · subst ht; exact Or.inr hmv
      · exact h.pqMove t ht
    · intro t ht
      rcases List.mem_cons.mp ht with ht | ht
      · subst ht
        exact Or.inr ⟨(nb, cur), List.mem_cons_self _ _, rfl⟩
      · rcases h.pqKey t ht with hc | ⟨x, hx, hx1⟩
        · exact Or.inl hc
        · exact Or.inr ⟨x, List.mem_cons_of_mem _ hx, hx1⟩
    · intro x hx
      exact List.mem_cons_of_mem _ hx
  · exact ⟨h, fun x hx => hx⟩

lemma foldl_relax_inv {canMove : Cell → Bool} {nbhd : Cell → List Cell} {src cur : Cell}
    {ccost : Nat} :
    ∀ (nbs : List Cell) (st : DState),
      DInv canMove nbhd src st →
      (cur = src ∨ ∃ x ∈ st.came_from, x.1 = cur) →
      (∀ nb ∈ nbs, nb ∈ nbhd cur) →
      DInv canMove nbhd src (nbs.foldl (relax canMove cur ccost) st) := by
  intro nbs
  induction nbs with
  | nil => intro st h _ _; exact h
  | cons nb nbs ih =>
    intro st h hcur hnbs
    simp only [List.foldl_cons]
    obtain ⟨h', hmono⟩ := relax_inv h hcur (hnbs nb (List.mem_cons_self _ _))
    apply ih _ h'
    · rcases hcur with hc | ⟨x, hx, hx1⟩
      · exact Or.inl hc
      · exact Or.inr ⟨x, hmono x hx, hx1⟩
    · intro nb2 h2; exact hnbs nb2 (List.mem_cons_of_mem _ h2)

lemma reconstruct_spec {canMove : Cell → Bool} {nbhd : Cell → List Cell} {src : Cell}
    {cf : List (Cell × Cell)}
    (h1 : ∀ e ∈ cf, canMove e.1 = true ∧ e.1 ∈ nbhd e.2)
    (h2 : ∀ e ∈ cf, e.2 = src ∨ ∃ x ∈ cf, x.1 = e.2) :
    ∀ (fuel : Nat) (cell : Cell) (acc r : List Cell),
      reconstruct cf fuel cell acc = some r →
      (cell = src ∨ ∃ x ∈ cf, x.1 = cell) →
      List.Chain (DStep canMove nbhd) cell acc →
      (∀ x ∈ acc, ∃ e ∈ cf, e.1 = x) →
      List.Chain (DStep canMove nbhd) src r ∧ (∀ x ∈ r, ∃ e ∈ cf, e.1 = x) ∧
        ∃ pre, r = pre ++ acc := by
  intro fuel
  induction fuel with
  | zero => intro cell acc r h _ _ _; simp [reconstruct] at h
  | succ fuel ih =>
    intro cell acc r hrec hcell hch hacc
    simp only [reconstruct] at hrec
    cases hlk : alook cf cell with
    | none =>
      rw [hlk] at hrec
      injection hrec with hrec
      subst hrec
      have hcsrc : cell = src := by
        rcases hcell with hc | hk
        · exact hc
        · obtain ⟨v, hv⟩ := alook_isSome hk
          rw [hv] at hlk
          cases hlk
      subst hcsrc
      exact ⟨hch, hacc, [], rfl⟩
    | some p =>
      rw [hlk] at hrec
      have hmem := alook_mem hlk
      have hstep : DStep canMove nbhd p cell := h1 (cell, p) hmem
      obtain ⟨hs1, hs2, pre, hpre⟩ := ih p (cell :: acc) r hrec
        (h2 (cell, p) hmem)
        ((List.chain_cons).mpr ⟨hstep, hch⟩)
        (fun x hx => by
          rcases List.mem_cons.mp hx with hx | hx
          · exact ⟨(cell, p), hmem, hx ▸ rfl⟩
          · exact hacc x hx)
      refine ⟨hs1, hs2, pre ++ [cell], ?_⟩
      rw [hpre, List.append_assoc]
      rfl

lemma dloop_spec {canMove : Cell → Bool} {nbhd : Cell → List Cell} {src target : Cell} :
    ∀ (fuel : Nat) (st : DState) (r : List Cell),
      DInv canMove nbhd src st →
      dloop canMove nbhd target fuel st = some r →
      List.Chain (DStep canMove nbhd) src r ∧ src ∉ r ∧
        (r ≠ [] → r.getLast? = some target) ∧
        (src = target → r = []) ∧
        (canMove target = false → r = []) := by
  intro fuel
  induction fuel with
  | zero => intro st r _ h; simp [dloop] at h
  | succ fuel ih =>
    intro st r hinv hloop
    rw [dloop] at hloop
    cases hpop : popMin st.pq with
    | none =>
      rw [hpop] at hloop
      injection hloop with hloop
      subst hloop
      exact ⟨List.Chain.nil, by simp, by simp, fun _ => rfl, fun _ => rfl⟩
    | some pr =>
      obtain ⟨e, rest⟩ := pr
      rw [hpop] at hloop
      simp only at hloop
      obtain ⟨hmem_e, hsub⟩ := popMin_mem hpop
      by_cases hvis : e.2.2 ∈ st.visited
      · rw [if_pos hvis] at hloop
        have hinv0 : DInv canMove nbhd src { st with pq := rest } :=
          ⟨hinv.cfStep, hinv.cfParent, hinv.cfNoSrc, hinv.costSrc,
           fun t ht => hinv.pqMove t (hsub t ht),
           fun t ht => hinv.pqKey t (hsub t ht)⟩
        exact ih { st with pq := rest } r hinv0 hloop
      · rw [if_neg hvis] at hloop
        by_cases htgt : e.2.2 = target
        · rw [if_pos htgt] at hloop
          by_cases hts : target = src
          · have hnone : alook st.came_from target = none := by
              apply alook_eq_none
              intro x hx
              rw [hts]
              exact hinv.cfNoSrc x hx
            rw [reconstruct] at hloop
            rw [hnone] at hloop
            injection hloop with hloop
            subst hloop
            exact ⟨List.Chain.nil, by simp, by simp, fun _ => rfl, fun _ => rfl⟩
          · have hkey : ∃ x ∈ st.came_from, x.1 = target := by
              rcases hinv.pqKey e hmem_e with hc | hk
              · rw [htgt] at hc; exact absurd hc hts
              · rw [htgt] at hk; exact hk
            obtain ⟨p, hp⟩ := alook_isSome hkey
            rw [reconstruct] at hloop
            rw [hp] at hloop
            have hmem := alook_mem hp
            obtain ⟨hs1, hs2, pre, hpre⟩ :=
              reconstruct_spec hinv.cfStep hinv.cfParent _ p [target] r hloop
                (hinv.cfParent (target, p) hmem)
                ((List.chain_cons).mpr ⟨hinv.cfStep (target, p) hmem, List.Chain.nil⟩)
                (fun x hx => by
                  rcases List.mem_cons.mp hx with hx | hx
                  · exact ⟨(target, p), hmem, hx ▸ rfl⟩
                  · simp at hx)
            refine ⟨hs1, ?_, ?_, ?_, ?_⟩
            · intro hx
              obtain ⟨x, hxm, hx1⟩ := hs2 src hx
              exact hinv.cfNoSrc x hxm hx1
            · intro _
              rw [hpre]
              exact List.getLast?_concat _
            · intro h
              exact absurd h.symm hts
            · intro hcm
              rcases hinv.pqMove e hmem_e with hc | hk
              · rw [htgt] at hc; exact absurd hc hts
              · rw [htgt, hcm] at hk; cases hk
        · rw [if_neg htgt] at hloop
          have hinv1 : DInv canMove nbhd src
              { st with pq := rest, visited := e.2.2 :: st.visited } :=
            ⟨hinv.cfStep, hinv.cfParent, hinv.cfNoSrc, hinv.costSrc,
             fun t ht => hinv.pqMove t (hsub t ht),
             fun t ht => hinv.pqKey t (hsub t ht)⟩
          exact ih _ r
            (foldl_relax_inv _ _ hinv1 (hinv.pqKey e hmem_e) (fun nb h => h)) hloop

end Dijkstra

/-- Claim C4: for every source and target, the pathfinder returns an ordered
sequence of traversable, pairwise-adjacent cells leading from the source
(exclusive) to the target (inclusive); it returns the empty sequence when the
source equals the target, when the target cell is not traversable (fully
blocked), and when the target is unreachable. The fuel only bounds the
number of loop iterations; every `some` result is the Python result. -/
theorem dijkstra_path_spec (canMove : Cell → Bool) (nbhd : Cell → List Cell)
    (src target : Cell) (fuel : Nat) (r : List Cell)
    (h : Dijkstra.dijkstra_path canMove nbhd src target fuel = some r) :
    List.Chain (Dijkstra.DStep canMove nbhd) src r ∧
    src ∉ r ∧
    (r ≠ [] → r.getLast? = some target) ∧
    (src = target → r = []) ∧
    (canMove target = false → r = []) ∧
    ((¬ ∃ p : List Cell, List.Chain (Dijkstra.DStep canMove nbhd) src p ∧
        p.getLast? = some target) → r = []) := by
  have hinv : Dijkstra.DInv canMove nbhd src ⟨[(0, 0, src)], [], [], [(src, 0)], 0⟩ := by
    refine ⟨?_, ?_, ?_, ?_, ?_, ?_⟩
    · intro e he; simp at he
    · intro e he; simp at he
    · intro e he; simp at he
    · simp [Dijkstra.alook]
    · intro t ht
      simp at ht
      subst ht
      exact Or.inl rfl
    · intro t ht
      simp at ht
      subst ht
      exact Or.inl rfl
  obtain ⟨h1, h2, h3, h4, h5⟩ := Dijkstra.dloop_spec fuel _ r hinv h
  refine ⟨h1, h2, h3, h4, h5, ?_⟩
  intro hnone
  by_contra hne
  exact hnone ⟨r, h1, h3 hne⟩

/-- Witness for C4 at a concrete grid: on a fully traversable 3 by 3 grid the
search from (0,0) to (1,1) yields the one-step path [(1,1)], whose properties
follow from the specification theorem. -/
theorem dijkstra_path_spec_witness :
    Dijkstra.dijkstra_path (fun _ => true) (neighborhoodOf 3 3) (0, 0) (1, 1) 50 =
      some [(1, 1)] ∧
    ((0, 0) : Cell) ∉ [((1, 1) : Cell)] ∧
    ([((1, 1) : Cell)].getLast? = some (1, 1)) :=
  ⟨by decide,
   (dijkstra_path_spec (fun _ => true) (neighborhoodOf 3 3) (0, 0) (1, 1) 50
      [(1, 1)] (by decide)).2.1,
   (dijkstra_path_spec (fun _ => true) (neighborhoodOf 3 3) (0, 0) (1, 1) 50
      [(1, 1)] (by decide)).2.2.1 (by simp)⟩

/-- Claim C6 (code bug): the cached-path validity test of
`move_towards_station` is vacuous — it compares a cell with a list of cells,
which is always unequal in Python — so the path is recomputed on every call,
never reused, contradicting the comment above it in the source. -/
theorem shouldRecalc_always_true :
    ∀ (path nbhd : List Cell), shouldRecalc path nbhd = true := by
  intro path nbhd
  cases path <;> rfl


/-- Claim C3 counterexample: a cell holding an Obstacle together with a
DirtyCell is reported traversable by both routines (the loops return true at
the first permitting occupant, never checking for obstacles), and a cell
whose only occupant is another CleanerAgent is not traversable for the
exploration routine (which has no cleaner clause) — both contradicting the
claimed single rule. -/
theorem can_move_to_obstacle_counterexample :
    can_move_to_dijkstra
      [{ id := 1, cell := (0, 0), data := .obstacleA },
       { id := 2, cell := (0, 0), data := .dirtyA true }] 7 (0, 0) = true ∧
    can_move_to_move
      [{ id := 1, cell := (0, 0), data := .obstacleA },
       { id := 2, cell := (0, 0), data := .dirtyA true }] (0, 0) = true ∧
    can_move_to_move
      [{ id := 3, cell := (0, 0), data := .cleanerA
          { battery := 100, moves := 0, cleaned_cells := 0, returning_to_charge := false,
            initial_station := none, path_to_station := [], visited_cells := [] } }]
      (0, 0) = false := by
  refine ⟨by decide, by decide, by decide⟩

/-- Claim C3 (amended): the pathfinding predicate holds exactly when the
cell is empty or some occupant is a charging station, a dirty cell, or a
cleaner other than the requester; the exploration predicate holds exactly
when the cell is empty or some occupant is a charging station or dirty
cell (no cleaner clause); a non-empty cell all of whose occupants are
obstacles — the only obstacle cells the model ever creates — is traversable
for neither routine. -/
theorem can_move_to_characterization (ags : List Agent) (selfId : Nat) (c : Cell) :
    (can_move_to_dijkstra ags selfId c = true ↔
      (cellAgents ags c = [] ∨ ∃ a ∈ cellAgents ags c,
        a.data = .stationA ∨ (∃ b, a.data = .dirtyA b) ∨
          ((∃ cs, a.data = .cleanerA cs) ∧ a.id ≠ selfId))) ∧
    (can_move_to_move ags c = true ↔
      (cellAgents ags c = [] ∨ ∃ a ∈ cellAgents ags c,
        a.data = .stationA ∨ (∃ b, a.data = .dirtyA b))) ∧
    ((∀ a ∈ cellAgents ags c, a.data = .obstacleA) → cellAgents ags c ≠ [] →
      can_move_to_dijkstra ags selfId c = false ∧ can_move_to_move ags c = false) := by
  refine ⟨?_, ?_, ?_⟩
  · simp only [can_move_to_dijkstra]
    by_cases he : (cellAgents ags c).isEmpty
    · rw [if_pos he]
      simp [List.isEmpty_iff.mp he]
    · rw [if_neg he]
      rw [List.any_eq_true]
      constructor
      · rintro ⟨x, hx, hxp⟩
        refine Or.inr ⟨x, hx, ?_⟩
        cases hd : x.data with
        | cleanerA cs =>
          rw [hd] at hxp
          exact Or.inr (Or.inr ⟨⟨cs, rfl⟩, bne_iff_ne.mp hxp⟩)
        | obstacleA => rw [hd] at hxp; cases hxp
        | dirtyA b => exact Or.inr (Or.inl ⟨b, rfl⟩)
        | stationA => exact Or.inl rfl
      · rintro (hnil | ⟨a, ha, hp⟩)
        · exact absurd (by rw [hnil]; rfl) he
        · refine ⟨a, ha, ?_⟩
          rcases hp with hp | ⟨b, hp⟩ | ⟨⟨cs, hp⟩, hne⟩
          · rw [hp]
          · rw [hp]
          · rw [hp]
            exact bne_iff_ne.mpr hne
  · simp only [can_move_to_move]
    by_cases he : (cellAgents ags c).isEmpty
    · rw [if_pos he]
      simp [List.isEmpty_iff.mp he]
    · rw [if_neg he]
      rw [List.any_eq_true]
      constructor
      · rintro ⟨x, hx, hxp⟩
        refine Or.inr ⟨x, hx, ?_⟩
        cases hd : x.data with
        | cleanerA cs => rw [hd] at hxp; cases hxp
        | obstacleA => rw [hd] at hxp; cases hxp
        | dirtyA b => exact Or.inr ⟨b, rfl⟩
        | stationA => exact Or.inl rfl
      · rintro (hnil | ⟨a, ha, hp⟩)
        · exact absurd (by rw [hnil]; rfl) he
        · refine ⟨a, ha, ?_⟩
          rcases hp with hp | ⟨b, hp⟩
          · rw [hp]
          · rw [hp]
  · intro hall hne
    have he : (cellAgents ags c).isEmpty = false := by
      cases hc : cellAgents ags c
      · exact absurd hc hne
      · rfl
    constructor
    · simp only [can_move_to_dijkstra]
      rw [if_neg (by rw [he]; exact Bool.false_ne_true)]
      rw [List.any_eq_false]
      intro x hx
      rw [hall x hx]
      exact Bool.false_ne_true
    · simp only [can_move_to_move]
      rw [if_neg (by rw [he]; exact Bool.false_ne_true)]
      rw [List.any_eq_false]
      intro x hx
      rw [hall x hx]
      exact Bool.false_ne_true

/-- Witness for the C3 characterization at a concrete cell: a station cell
shared with a cleaner, queried by that same cleaner. -/
theorem can_move_to_characterization_witness :
    (can_move_to_dijkstra agsC5 2 (1, 1) = true ↔
      (cellAgents agsC5 (1, 1) = [] ∨ ∃ a ∈ cellAgents agsC5 (1, 1),
        a.data = .stationA ∨ (∃ b, a.data = .dirtyA b) ∨
          ((∃ cs, a.data = .cleanerA cs) ∧ a.id ≠ 2))) ∧
    (can_move_to_move agsC5 (1, 1) = true ↔
      (cellAgents agsC5 (1, 1) = [] ∨ ∃ a ∈ cellAgents agsC5 (1, 1),
        a.data = .stationA ∨ (∃ b, a.data = .dirtyA b))) ∧
    ((∀ a ∈ cellAgents agsC5 (1, 1), a.data = .obstacleA) →
      cellAgents agsC5 (1, 1) ≠ [] →
      can_move_to_dijkstra agsC5 2 (1, 1) = false ∧
        can_move_to_move agsC5 (1, 1) = false) :=
  can_move_to_characterization agsC5 2 (1, 1)

/-- Claim C1 (code bug evaluation): a cleaner with battery 0 that is not on
a charging station still enters the return-to-charge branch — the
`battery <= 0` guard of `step` comes only after it — so stepping the agent
moves it and drives the battery to -1, violating the documented 0..100
range. -/
theorem cleaner_step_battery_negative :
    batteryOf (CleanerAgent.step 4 4 true (agsC1, 0, 0) 2).1 2 = some (-1) := by
  decide

lemma findAgent_id {ags : List Agent} {i : Nat} {a : Agent}
    (h : findAgent ags i = some a) : a.id = i := by
  induction ags with
  | nil => cases h
  | cons x rest ih =>
    simp only [findAgent] at h
    split at h
    · rename_i hx
      injection h with h
      rw [← h]
      exact hx
    · exact ih h

lemma findAgent_map_presId (f : Agent → Agent) (hf : ∀ a, (f a).id = a.id)
    (ags : List Agent) (i : Nat) :
    findAgent (ags.map f) i = (findAgent ags i).map f := by
  induction ags with
  | nil => rfl
  | cons a rest ih =>
    simp only [List.map_cons, findAgent]
    rw [hf a]
    by_cases hid : a.id = i
    · rw [if_pos hid, if_pos hid]
      rfl
    · rw [if_neg hid, if_neg hid]
      exact ih

lemma findAgent_writeCleaner (ags : List Agent) (i : Nat) (c : Cell) (cs : CleanerState)
    (a : Agent) (ha : findAgent ags i = some a) :
    findAgent (writeCleaner ags i c cs) i =
      some { a with cell := c, data := .cleanerA cs } := by
  unfold writeCleaner
  rw [findAgent_map_presId _ (fun x => by split <;> rfl) ags i, ha]
  simp [findAgent_id ha]

lemma returningOf_writeCleaner (ags : List Agent) (i : Nat) (c : Cell)
    (cs : CleanerState) (a : Agent) (ha : findAgent ags i = some a) :
    returningOf (writeCleaner ags i c cs) i = some cs.returning_to_charge := by
  unfold returningOf
  rw [findAgent_writeCleaner ags i c cs a ha]

lemma clean_current_cell_returning (ags : List Agent) (dirty : Int) (cell : Cell)
    (cs : CleanerState) :
    (CleanerAgent.clean_current_cell ags dirty cell cs).2.2.2.returning_to_charge =
      cs.returning_to_charge := by
  unfold CleanerAgent.clean_current_cell
  split <;> rfl

lemma clean_current_cell_findAgent (ags : List Agent) (dirty : Int) (cell : Cell)
    (cs : CleanerState) (i : Nat) (a : Agent) (ha : findAgent ags i = some a) :
    ∃ b, findAgent (CleanerAgent.clean_current_cell ags dirty cell cs).2.1 i = some b := by
  unfold CleanerAgent.clean_current_cell
  split
  · rw [findAgent_map_presId _ (fun x => by split <;> rfl) ags i, ha]
    exact ⟨_, rfl⟩
  · exact ⟨a, ha⟩

lemma move_returning (w h : Nat) (ags : List Agent) (dirty : Int) (rng : Nat)
    (selfId : Nat) (cell : Cell) (cs : CleanerState) (a : Agent)
    (ha : findAgent ags selfId = some a) :
    returningOf (CleanerAgent.move w h ags dirty rng selfId cell cs).1 selfId =
      some cs.returning_to_charge := by
  simp only [CleanerAgent.move]
  split
  · exact returningOf_writeCleaner ags selfId cell cs a ha
  · exact returningOf_writeCleaner ags selfId _ _ a ha

lemma stepRest_returning (w h : Nat) (multi : Bool) (ags : List Agent) (dirty : Int)
    (rng : Nat) (selfId : Nat) (cell : Cell) (cs : CleanerState) (a : Agent)
    (ha : findAgent ags selfId = some a) (hb : cs.battery = 100) :
    returningOf (CleanerAgent.stepRest w h multi ags dirty rng selfId cell true cs).1
      selfId = some cs.returning_to_charge := by
  simp only [CleanerAgent.stepRest]
  rw [if_neg (by simp)]
  rw [if_neg (by rw [hb]; decide)]
  have hflag := clean_current_cell_returning ags dirty cell cs
  obtain ⟨b, hb2⟩ := clean_current_cell_findAgent ags dirty cell cs selfId a ha
  split
  · rw [move_returning w h _ _ rng selfId cell _ b hb2, hflag]
  · rw [returningOf_writeCleaner _ selfId cell _ b hb2, hflag]

/-- Claim C5: a cleaner on a charging-station cell with battery below 100
gains exactly 5 battery capped at 100, sets `returning_to_charge`, and does
nothing else that tick (same cell, same counters, same dirty count, no
randomness drawn); with battery exactly 100 the step equals the normal
behaviour applied with the flag cleared, and the flag is false afterwards
(it is cleared on the tick after the battery reaches 100). -/
theorem cleaner_step_charging_spec (w h : Nat) (multi : Bool) (ags : List Agent)
    (dirty : Int) (rng : Nat) (selfId : Nat) (a : Agent) (cs : CleanerState)
    (ha : findAgent ags selfId = some a) (hdata : a.data = .cleanerA cs)
    (hst : (cellAgents ags a.cell).any isStationAg = true) :
    (cs.battery < 100 →
      CleanerAgent.step w h multi (ags, dirty, rng) selfId =
        (writeCleaner ags selfId a.cell
          { cs with battery := min 100 (cs.battery + 5), returning_to_charge := true },
         dirty, rng)) ∧
    (cs.battery = 100 →
      CleanerAgent.step w h multi (ags, dirty, rng) selfId =
        CleanerAgent.stepRest w h multi ags dirty rng selfId a.cell true
          { cs with returning_to_charge := false } ∧
      returningOf (CleanerAgent.step w h multi (ags, dirty, rng) selfId).1 selfId =
        some false) := by
  constructor
  · intro hb
    simp only [CleanerAgent.step, ha, hdata, hst, eq_self_iff_true, true_and]
    rw [if_pos hb]
  · intro hb
    have heq : CleanerAgent.step w h multi (ags, dirty, rng) selfId =
        CleanerAgent.stepRest w h multi ags dirty rng selfId a.cell true
          { cs with returning_to_charge := false } := by
      simp only [CleanerAgent.step, ha, hdata, hst, eq_self_iff_true, true_and]
      rw [if_neg (by rw [hb]; decide), if_pos trivial]
    refine ⟨heq, ?_⟩
    rw [heq]
    exact stepRest_returning w h multi ags dirty rng selfId a.cell
      { cs with returning_to_charge := false } a ha hb

/-- Witness for C5 at a concrete state: the half-charged cleaner on its
station gains 5 battery and nothing else changes. -/
theorem cleaner_step_charging_spec_witness :
    CleanerAgent.step 3 3 true (agsC5, 0, 7) 2 =
      (writeCleaner agsC5 2 agC5.cell
        { csC5 with battery := min 100 (csC5.battery + 5), returning_to_charge := true },
       0, 7) :=
  (cleaner_step_charging_spec 3 3 true agsC5 0 7 2 agC5 csC5
    (by decide) rfl (by decide)).1 (by decide)

lemma mk_ok_fields {p : Params} {m : ModelState} (h : mkCleaningModel p = .ok m) :
    m.current_step = 0 ∧ m.max_time = p.max_time ∧ m.cleaning_completed_at = none ∧
      m.initial_dirty_cells = (num_dirty_of p : Int) := by
  simp only [mkCleaningModel] at h
  split at h
  · split at h
    · injection h with h
      subst h
      exact ⟨rfl, rfl, rfl, rfl⟩
    · cases h
  · split at h
    · split at h
      · injection h with h
        subst h
        exact ⟨rfl, rfl, rfl, rfl⟩
      · cases h
    · cases h

lemma step_current_step (m : ModelState) :
    (CleaningModel.step m).current_step = m.current_step + 1 := rfl

lemma step_max_time (m : ModelState) :
    (CleaningModel.step m).max_time = m.max_time := rfl

lemma step_completed (m : ModelState) :
    (CleaningModel.step m).cleaning_completed_at =
      if (CleaningModel.step m).dirty_cells ≤ 0 ∧ m.cleaning_completed_at = none
      then some (m.current_step + 1) else m.cleaning_completed_at := rfl

lemma stepN_current_step (n : Nat) (m : ModelState) :
    (stepN n m).current_step = m.current_step + n := by
  induction n with
  | zero => rfl
  | succ n ih =>
    show (CleaningModel.step (stepN n m)).current_step = m.current_step + (n + 1)
    rw [step_current_step, ih]
    omega

lemma stepN_max_time (n : Nat) (m : ModelState) :
    (stepN n m).max_time = m.max_time := by
  induction n with
  | zero => rfl
  | succ n ih =>
    show (CleaningModel.step (stepN n m)).max_time = m.max_time
    rw [step_max_time, ih]

lemma step_running_false (m : ModelState) (h : m.max_time ≤ m.current_step + 1) :
    (CleaningModel.step m).running = false := by
  show (let cs := m.current_step + 1
    let pr := shuffleList m.rng (m.agents.map (fun a => a.id))
    let core := pr.1.foldl
      (CleanerAgent.step m.width m.height m.multi_agent_mode)
      (m.agents, m.dirty_cells, pr.2)
    let running2 := if cs ≥ m.max_time then false else m.running
    let running3 := if core.2.1 ≤ 0 then false else running2
    if allAgentsDead core.1 then false else running3) = false
  simp only
  split
  · rfl
  split
  · rfl
  · rfl

/-- Claim C9: every run halts within `max_time` ticks — each `step` call
increments the tick counter, and the call that brings it to `max_time`
clears the `running` flag (it may clear earlier on a clean grid or global
starvation). Stated for any model produced by construction with a positive
tick cap. -/
theorem run_halts_by_max_time (p : Params) (m : ModelState)
    (hm : mkCleaningModel p = .ok m) (hpos : 1 ≤ p.max_time) :
    (stepN p.max_time m).running = false := by
  obtain ⟨hcs, hmt, _, _⟩ := mk_ok_fields hm
  obtain ⟨k, hk⟩ : ∃ k, p.max_time = k + 1 := ⟨p.max_time - 1, by omega⟩
  rw [hk]
  show (CleaningModel.step (stepN k m)).running = false
  apply step_running_false
  rw [stepN_max_time, hmt, stepN_current_step, hcs, hk]
  omega

/-- Witness for C9: the 3 by 3 one-agent model with `max_time = 1` has its
run flag cleared after one step. -/
theorem run_halts_by_max_time_witness : (stepN p3.max_time demo3).running = false :=
  run_halts_by_max_time p3 demo3 rfl (by decide)

/-- Claim C8: two models constructed from identical parameters (including
the seed), stepped the same number of ticks, produce identical tick-by-tick
statistics — dirty count, totals, and per-agent battery, moves, cleaned
count and position. The whole simulation is a pure function of the
parameters: every random draw comes from the explicit generator state. -/
theorem run_deterministic (p : Params) (m1 m2 : ModelState) (n : Nat)
    (h1 : mkCleaningModel p = .ok m1) (h2 : mkCleaningModel p = .ok m2) :
    collectTrace m1 n = collectTrace m2 n := by
  rw [h1] at h2
  injection h2 with h2
  rw [h2]

/-- Witness for C8 on the concrete 3 by 3 model. -/
theorem run_deterministic_witness : collectTrace demo3 1 = collectTrace demo3 1 :=
  run_deterministic p3 demo3 demo3 1 rfl rfl

/-- Claim C2 counterexample: requesting 25 obstacle cells on a 5 by 5 grid
(9 interior cells) does not raise — construction succeeds and silently
places zero interior obstacles. -/
theorem mk_model_silent_obstacle_overrequest :
    num_obstacles_of pC2 = 25 ∧
    (interiorCells pC2.width pC2.height).length = 9 ∧
    (mkCleaningModel pC2).toOption.map countInteriorObstacles = some 0 := by
  refine ⟨rfl, rfl, by decide⟩

/-- Claim C2 (amended): in multi-agent mode construction fails exactly when
the requested agent/station count exceeds the interior-cell pool;
over-requested obstacle or dirty counts never make construction fail — the
model is built with none of them placed instead. -/
theorem mk_model_error_iff (p : Params) (hmulti : p.multi_agent_mode = true) :
    (∃ m, mkCleaningModel p = .ok m) ↔
      p.num_agents ≤ (interiorCells p.width p.height).length := by
  simp only [mkCleaningModel, hmulti, if_true]
  by_cases hle : p.num_agents ≤ (interiorCells p.width p.height).length
  · rw [if_pos hle]
    exact ⟨fun _ => hle, fun _ => ⟨_, rfl⟩⟩
  · rw [if_neg hle]
    constructor
    · rintro ⟨m, hm⟩
      cases hm
    · intro h
      exact absurd h hle

/-- Witness for the amended C2 at the concrete 3 by 3 configuration. -/
theorem mk_model_error_iff_witness :
    (∃ m, mkCleaningModel p3 = .ok m) ↔
      p3.num_agents ≤ (interiorCells p3.width p3.height).length :=
  mk_model_error_iff p3 rfl

/-- Claim C7 counterexample: with `width = height = 10` and
`dirty_percentage = 50`, construction computes 50 dirty cells — 50 percent
of the full 100-cell grid — not the 32 that 50 percent of the 64-cell
interior pool would give; the constructed model records 50. -/
theorem dirty_count_full_grid_counterexample :
    num_dirty_of pC7 = 50 ∧
    pC7.dirty_percentage * (interiorCells pC7.width pC7.height).length / 100 = 32 ∧
    (mkCleaningModel pC7).toOption.map (fun m => m.initial_dirty_cells) = some 50 := by
  refine ⟨rfl, by decide, by decide⟩

/-- Claim C7 (amended): the dirty-cell and obstacle counts are computed from
the percentages as fractions of the full `width * height` cell count, not of
the interior pool; the constructed model's initial dirty count is that
full-grid number. -/
theorem mk_model_counts_full_grid (p : Params) (m : ModelState)
    (hm : mkCleaningModel p = .ok m) :
    m.initial_dirty_cells = (num_dirty_of p : Int) ∧
    num_dirty_of p = p.dirty_percentage * (p.width * p.height) / 100 ∧
    num_obstacles_of p = p.obstacle_percentage * (p.width * p.height) / 100 :=
  ⟨(mk_ok_fields hm).2.2.2, rfl, rfl⟩

/-- Witness for the amended C7 on the concrete 3 by 3 model. -/
theorem mk_model_counts_full_grid_witness :
    demo3.initial_dirty_cells = (num_dirty_of p3 : Int) ∧
    num_dirty_of p3 = p3.dirty_percentage * (p3.width * p3.height) / 100 ∧
    num_obstacles_of p3 = p3.obstacle_percentage * (p3.width * p3.height) / 100 :=
  mk_model_counts_full_grid p3 demo3 rfl

lemma completed_at_char (m0 : ModelState) (h0 : m0.cleaning_completed_at = none)
    (hc0 : m0.current_step = 0) (n : Nat) :
    ((stepN n m0).cleaning_completed_at = none ∧
      ∀ k, 1 ≤ k → k ≤ n → ¬ (stepN k m0).dirty_cells ≤ 0) ∨
    (∃ t, (stepN n m0).cleaning_completed_at = some t ∧ 1 ≤ t ∧ t ≤ n ∧
      (stepN t m0).dirty_cells ≤ 0 ∧
      ∀ j, 1 ≤ j → j < t → ¬ (stepN j m0).dirty_cells ≤ 0) := by
  induction n with
  | zero =>
    left
    exact ⟨h0, fun k hk1 hk0 => by omega⟩
  | succ n ih =>
    have hcompl : (stepN (n + 1) m0).cleaning_completed_at =
        if (stepN (n + 1) m0).dirty_cells ≤ 0 ∧
            (stepN n m0).cleaning_completed_at = none
        then some ((stepN n m0).current_step + 1)
        else (stepN n m0).cleaning_completed_at :=
      step_completed (stepN n m0)
    rw [stepN_current_step, hc0, Nat.zero_add] at hcompl
    rcases ih with ⟨hnone, hall⟩ | ⟨t, ht, ht1, htn, htd, htmin⟩
    · by_cases hd : (stepN (n + 1) m0).dirty_cells ≤ 0
      · right
        refine ⟨n + 1, ?_, by omega, Nat.le_refl _, hd, ?_⟩
        · rw [hcompl, if_pos ⟨hd, hnone⟩]
        · intro j hj1 hjlt
          exact hall j hj1 (by omega)
      · left
        constructor
        · rw [hcompl, if_neg (fun hc => hd hc.1)]
          exact hnone
        · intro k hk1 hkn
          rcases Nat.lt_or_ge k (n + 1) with hk | hk
          · exact hall k hk1 (by omega)
          · have hke : k = n + 1 := by omega
            rw [hke]
            exact hd
    · right
      refine ⟨t, ?_, ht1, by omega, htd, htmin⟩
      rw [hcompl, if_neg (fun hc => by rw [ht] at hc; cases hc.2)]
      exact ht

/-- Claim C10: `get_statistics` reports `completion_time` equal to the first
tick at whose end the aggregate dirty count was down to zero when that has
happened within the run, and falls back to the current tick count otherwise;
it is a total function, well defined at any tick. -/
theorem completion_time_spec (p : Params) (m : ModelState) (n : Nat)
    (hm : mkCleaningModel p = .ok m) :
    ((∀ k, 1 ≤ k → k ≤ n → 0 < (stepN k m).dirty_cells) →
      (CleaningModel.get_statistics (stepN n m)).completion_time =
        (stepN n m).current_step) ∧
    (∀ t, 1 ≤ t → t ≤ n → (stepN t m).dirty_cells ≤ 0 →
      (∀ j, 1 ≤ j → j < t → 0 < (stepN j m).dirty_cells) →
      (CleaningModel.get_statistics (stepN n m)).completion_time = t) := by
  obtain ⟨hcs, _, hnone, _⟩ := mk_ok_fields hm
  have hchar := completed_at_char m hnone hcs n
  constructor
  · intro hall
    rcases hchar with ⟨hn, _⟩ | ⟨t, ht, ht1, htn, htd, _⟩
    · simp [CleaningModel.get_statistics, hn]
    · exact absurd htd (by have := hall t ht1 htn; omega)
  · intro t ht1 htn htd hmin
    rcases hchar with ⟨hn, hall⟩ | ⟨t2, ht2, ht21, ht2n, ht2d, ht2min⟩
    · exact absurd htd (hall t ht1 htn)
    · have hteq : t2 = t := by
        by_contra hne
        rcases Nat.lt_or_ge t2 t with hlt | hge
        · have := hmin t2 ht21 hlt
          omega
        · have hlt2 : t < t2 := by omega
          exact ht2min t ht1 hlt2 htd
      subst hteq
      have htne : t2 ≠ 0 := by omega
      simp [CleaningModel.get_statistics, ht2, htne]

/-- Witness for C10: in the 3 by 3 model with nothing dirty, the count is
zero at the end of tick 1 and `get_statistics` reports completion tick 1. -/
theorem completion_time_spec_witness :
    (CleaningModel.get_statistics (stepN 1 demo3)).completion_time = 1 :=
  (completion_time_spec p3 demo3 1 rfl).2 1 (by decide) (by decide) (by decide)
    (fun j hj1 hj2 => by omega)
